import Mathlib

/-!
Shallow embedding of the bricksKV storage engine (src/kv.rs and its
submodules) and proofs about the claims of its specification.

Conventions used throughout:
* Rust byte strings (`Vec<u8>`, `&[u8]`) are `List Nat`, each element a byte
  value (< 256 for every value produced by the embedded encoders).
* Rust `HashMap<Vec<u8>, KVOp>` is an association list; `bufInsert` prepends,
  `bufLookup` returns the first match, which models the map's
  last-insert-wins semantics (iteration order of the map is never observed
  by the embedded code paths).
* The zstd payload transform applied at the WAL boundary
  (`compress_data` / `de_compress_data` in src/kv/wal.rs) is modelled as the
  identity transform: the spec allows any symmetric transform, and
  `decode_all (encode_all x) = x`, so record payloads are stored directly.
  Consequently the WAL end offset counts uncompressed payload bytes.
* Fallible Rust code is `Except`/`Option`; a Rust panic (slice out of
  range, `unwrap` of `None`) is `Option.none`.
-/

/-- Little-endian 4-byte encoding of a `u32` value (`u32::to_le_bytes`). -/
def le32 (n : Nat) : List Nat :=
  [n % 256, n / 256 % 256, n / 2 ^ 16 % 256, n / 2 ^ 24 % 256]

/-- Little-endian 8-byte encoding of a `u64` value (`u64::to_le_bytes`). -/
def le64 (n : Nat) : List Nat :=
  [n % 256, n / 256 % 256, n / 2 ^ 16 % 256, n / 2 ^ 24 % 256,
   n / 2 ^ 32 % 256, n / 2 ^ 40 % 256, n / 2 ^ 48 % 256, n / 2 ^ 56 % 256]

/-- Reads a little-endian `u32` from four consecutive bytes of a byte list
(`u32::from_le_bytes` applied to `payload[off..off+4]`). -/
def readLe32 (bs : List Nat) (off : Nat) : Nat :=
  bs.getD off 0 + 256 * bs.getD (off + 1) 0 + 2 ^ 16 * bs.getD (off + 2) 0 +
    2 ^ 24 * bs.getD (off + 3) 0

/-- Reads a little-endian `u64` from eight consecutive bytes of a byte list
(`u64::from_le_bytes`). -/
def readLe64 (bs : List Nat) (off : Nat) : Nat :=
  bs.getD off 0 + 256 * bs.getD (off + 1) 0 + 2 ^ 16 * bs.getD (off + 2) 0 +
    2 ^ 24 * bs.getD (off + 3) 0 + 2 ^ 32 * bs.getD (off + 4) 0 +
    2 ^ 40 * bs.getD (off + 5) 0 + 2 ^ 48 * bs.getD (off + 6) 0 +
    2 ^ 56 * bs.getD (off + 7) 0

/-- A single KV operation (`enum KVOp` in src/kv.rs): `Put { value }` or
`Del {}`. -/
inductive KVOpM where
  | put (value : List Nat)
  | del
deriving DecidableEq, Repr

/-- The hash-index value stored per key (`struct DataInfo` in src/kv.rs):
a `u64` data id and a `u32` data length. -/
structure DataInfoM where
  dataId : Nat
  dataLen : Nat
deriving DecidableEq, Repr

/-- An in-memory write buffer, modelling `HashMap<Vec<u8>, KVOp>`.
Represented as an association list where the most recent insertion for a
key is the first match. -/
def Buf : Type := List (List Nat × KVOpM)

instance : DecidableEq Buf := by
  unfold Buf; infer_instance

/-- Inserting into the buffer (`HashMap::insert` / the per-element effect of
`HashMap::extend`): the new binding shadows any older binding of the key. -/
def bufInsert (buf : Buf) (k : List Nat) (op : KVOpM) : Buf :=
  (k, op) :: buf

/-- Buffer lookup (`HashMap::get`): first (most recent) binding wins. -/
def bufLookup (buf : Buf) (k : List Nat) : Option KVOpM :=
  match buf with
  | [] => none
  | (k', op) :: rest => if k' = k then some op else bufLookup rest k

/-- Folds a batch into a buffer in order
(`buffer_with_write_lock.extend(batch.ops)`): later entries for the same
key override earlier ones. -/
def bufExtend (buf : Buf) (ops : List (List Nat × KVOpM)) : Buf :=
  ops.foldl (fun b p => bufInsert b p.1 p.2) buf

/-- The errors of the KV façade (`enum KVError` in src/kv.rs).  `Io` never
arises in the pure embedding, so only the remaining variants appear. -/
inductive KVErrorM where
  | invalidKeyLength
  | other (msg : List Nat)
deriving DecidableEq, Repr

/-- The `total_size` computed by `KV::do_batch`: for each op, 4 bytes of
entry length plus key length plus (for `Put`) value length. -/
def batchTotalSize (ops : List (List Nat × KVOpM)) : Nat :=
  (ops.map (fun p =>
    match p.2 with
    | .put v => p.1.length + v.length + 4
    | .del => p.1.length + 4)).sum

/-- The per-entry byte section of a batch payload built by `KV::do_batch`:
for `Put` a `u32 entry_len` (= key length + value length) followed by key
and value bytes; for `Del` a `u32` holding `key_size` followed by the key
bytes. -/
def batchEntriesBytes (keySize : Nat) (ops : List (List Nat × KVOpM)) : List Nat :=
  match ops with
  | [] => []
  | (k, .put v) :: rest =>
      le32 (k.length + v.length) ++ k ++ v ++ batchEntriesBytes keySize rest
  | (k, .del) :: rest => le32 keySize ++ k ++ batchEntriesBytes keySize rest

/-- The full batch payload written by `KV::do_batch` to the WAL: a
`u32 total_size` header followed by the entry section. -/
def batchPayload (keySize : Nat) (ops : List (List Nat × KVOpM)) : List Nat :=
  le32 (batchTotalSize ops) ++ batchEntriesBytes keySize ops

/-- Whether some key of the batch fails the length validation performed by
`KV::do_batch` while building the payload. -/
def batchHasInvalidKey (keySize : Nat) (ops : List (List Nat × KVOpM)) : Bool :=
  ops.any (fun p => p.1.length ≠ keySize)

/-- A sealed buffer awaiting flush (`struct FlushingBuffer` in src/kv.rs):
the buffer contents together with the id of its WAL file (standing for
`wal_path`, since the path is determined by the id). -/
structure FlushingBufferM where
  buffer : Buf
  walId : Nat
deriving DecidableEq

/-- The state of the KV façade (`struct KV` in src/kv.rs), restricted to the
components the embedded operations touch.  `flushingBuffers` is ordered
oldest first: `do_batch` pushes sealed buffers at the tail and the flusher
removes index 0.  The persisted hash index and the data store are abstracted
as `index` (contents of `buckets_index`) and `dataRead` (the bytes
`level_page_bitmap.read` would return for a data id). -/
structure KVStateM where
  keySize : Nat
  walFlushSize : Nat
  walFsync : Bool
  currentWalId : Nat
  walEndOffset : Nat
  walRecords : List (List Nat)
  currentBuffer : Buf
  flushingBuffers : List FlushingBufferM
  index : List Nat → Option DataInfoM
  dataRead : Nat → List Nat

/-- The state produced by `KV::new` on a fresh directory: WAL id 0, empty
buffers, empty index, and the caller-chosen fsync flag on the current WAL. -/
def initStateM (keySize walFlushSize : Nat) (fsync : Bool) : KVStateM where
  keySize := keySize
  walFlushSize := walFlushSize
  walFsync := fsync
  currentWalId := 0
  walEndOffset := 0
  walRecords := []
  currentBuffer := []
  flushingBuffers := []
  index := fun _ => none
  dataRead := fun _ => []

/-- Whether `WAL::write_record` calls `sync_all` after appending a record in
the given state (`if self.fsync { self.file.sync_all()?; }`). -/
def writeRecordSyncsM (s : KVStateM) : Bool := s.walFsync

/-- One call of `KV::do_batch` under sequential semantics (the spawned
flusher thread is not scheduled, so `trigger_async_flush` is a no-op here).
Steps, in source order: validate all keys while building the payload
(returning `InvalidKeyLength` before any mutation), append the record to the
current WAL, rotate the WAL when the end offset exceeds `wal_flush_size`
(opening the replacement WAL with `fsync` hard-coded to `true`), fold the
batch into the current buffer, and seal the buffer when rotation occurred. -/
def doBatchM (s : KVStateM) (ops : List (List Nat × KVOpM)) :
    Except KVErrorM KVStateM :=
  if batchHasInvalidKey s.keySize ops then .error .invalidKeyLength
  else
    let payload := batchPayload s.keySize ops
    let size := s.walEndOffset + 4 + payload.length
    let rotated := size > s.walFlushSize
    let preWalId := s.currentWalId
    let s1 : KVStateM :=
      if rotated then
        { s with walRecords := [], walEndOffset := 0,
                 currentWalId := s.currentWalId + 1, walFsync := true }
      else
        { s with walRecords := s.walRecords ++ [payload], walEndOffset := size }
    let buf := bufExtend s1.currentBuffer ops
    if rotated then
      .ok { s1 with currentBuffer := [],
                    flushingBuffers :=
                      s1.flushingBuffers ++ [⟨buf, preWalId⟩] }
    else
      .ok { s1 with currentBuffer := buf }

/-- `KV::put`: a single-op `Put` batch. -/
def kvPutM (s : KVStateM) (k v : List Nat) : Except KVErrorM KVStateM :=
  doBatchM s [(k, .put v)]

/-- `KV::delete`: a single-op `Del` batch. -/
def kvDeleteM (s : KVStateM) (k : List Nat) : Except KVErrorM KVStateM :=
  doBatchM s [(k, .del)]

/-- Runs a list of batches in order, stopping at the first error. -/
def runKV (s : KVStateM) (bs : List (List (List Nat × KVOpM))) :
    Except KVErrorM KVStateM :=
  match bs with
  | [] => .ok s
  | b :: rest =>
      match doBatchM s b with
      | .error e => .error e
      | .ok s' => runKV s' rest

/-- Scans the flushing buffers exactly as `KV::get` does:
`for flushing_buffer in flushing_buffers_with_read_lock.iter()` walks the
`Vec` front to back, i.e. oldest sealed buffer first. -/
def findInFlushing (fbs : List FlushingBufferM) (k : List Nat) : Option KVOpM :=
  match fbs with
  | [] => none
  | fb :: rest =>
      match bufLookup fb.buffer k with
      | some op => some op
      | none => findInFlushing rest k

/-- `KV::get`: current buffer, then the flushing buffers in `Vec` iteration
order, then the sharded bucket index (with the read from the data store
truncated to `data_len`). -/
def getM (s : KVStateM) (k : List Nat) : Except KVErrorM (Option (List Nat)) :=
  match bufLookup s.currentBuffer k with
  | some (.put v) => .ok (some v)
  | some .del => .ok none
  | none =>
      match findInFlushing s.flushingBuffers k with
      | some (.put v) => .ok (some v)
      | some .del => .ok none
      | none =>
          match s.index k with
          | some di => .ok (some ((s.dataRead di.dataId).take di.dataLen))
          | none => .ok none

/-- The batch-payload decoding loop inside the replay callbacks of
`KV::load` (src/kv.rs lines 219-241 and 246-269): starting at offset 0 of
the decompressed payload, repeatedly read a `u32 entry_len`, slice
`entry_len` bytes, and fold the entry into the buffer — a `Put` of
`entry[key_size..]` when `entry_len > key_size`, otherwise a `Del`.  Note
that the loop starts at offset 0, i.e. at the `u32 total_size` header of the
payload.  Out-of-range slicing (a Rust panic) yields `none`. -/
def replayEntriesGo (keySize : Nat) (payload : List Nat) :
    (gas off : Nat) → Buf → Option Buf
  | 0, _, _ => none
  | gas + 1, off, buf =>
      if off < payload.length then
        if off + 4 ≤ payload.length then
          let entryLen := readLe32 payload off
          let off2 := off + 4
          if off2 + entryLen ≤ payload.length then
            let entry := (payload.drop off2).take entryLen
            if keySize < entryLen then
              replayEntriesGo keySize payload gas (off2 + entryLen)
                (bufInsert buf (entry.take keySize) (.put (entry.drop keySize)))
            else if keySize ≤ entryLen then
              replayEntriesGo keySize payload gas (off2 + entryLen)
                (bufInsert buf (entry.take keySize) .del)
            else none
          else none
        else none
      else some buf

/-- The decoding loop entry point.  Every loop iteration advances the offset
by at least 4, so `payload.length + 1` iterations can never be exhausted
before the `while batch_offset < batch_payload.len()` condition ends the
loop; the bound only makes the recursion structural. -/
def replayEntries (keySize : Nat) (payload : List Nat) (buf : Buf) : Option Buf :=
  replayEntriesGo keySize payload (payload.length + 1) 0 buf

/-- `WAL::replay` (src/kv/wal.rs): scan the file as a sequence of
`[u32 length][length bytes]` records; a truncated tail (fewer than 4 bytes
left, or fewer payload bytes than the length prefix promises) silently ends
the log.  The zstd transform is the identity (see the module comment). -/
def walReplayRecordsGo (file : List Nat) : (gas off : Nat) → List (List Nat)
  | 0, _ => []
  | gas + 1, off =>
      if off + 4 ≤ file.length then
        let len := readLe32 file off
        if off + 4 + len ≤ file.length then
          ((file.drop (off + 4)).take len) ::
            walReplayRecordsGo file gas (off + 4 + len)
        else []
      else []

/-- The record-scan entry point; every iteration advances the offset by at
least 4, so `file.length + 1` iterations always outlast the scan. -/
def walReplayRecords (file : List Nat) : List (List Nat) :=
  walReplayRecordsGo file (file.length + 1) 0

/-- The bytes `WAL::write_record` appends for one payload: a `u32 length`
prefix followed by the (identity-transformed) payload. -/
def walRecordBytes (payload : List Nat) : List Nat :=
  le32 payload.length ++ payload

/-- The outcome of `KV::load`: the WAL ids whose files were deleted, the
current in-memory buffer, and the sealed buffers pushed onto
`flushing_buffers` (in push order, each carrying its WAL id). -/
structure LoadResultM where
  deletedIds : List Nat
  currentBuffer : Buf
  flushing : List FlushingBufferM
deriving DecidableEq

/-- Replays every record of one WAL file into a buffer, in file order. -/
def replayRecordsInto (keySize : Nat) (records : List (List Nat)) (buf : Buf) :
    Option Buf :=
  match records with
  | [] => some buf
  | r :: rest =>
      match replayEntries keySize r buf with
      | some b => replayRecordsInto keySize rest b
      | none => none

/-- `KV::load` (src/kv.rs lines 204-277).  `enumIds` is the id list returned
by `get_all_wal_ids`, i.e. the WAL directory in `read_dir` enumeration order
(`get_all_wal_ids` performs no sorting).  Files with id greater than
`meta.current_wal_id` are deleted; the retained ids are processed in
enumeration order, folding into the current buffer when the id equals
`current_wal_id` and otherwise into a fresh sealed buffer appended to
`flushing_buffers`. -/
def loadModel (keySize : Nat) (enumIds : List Nat) (currentWalId : Nat)
    (walFileOf : Nat → List Nat) : Option LoadResultM :=
  let deleted := enumIds.filter (fun id => currentWalId < id)
  let retained := enumIds.filter (fun id => id ≤ currentWalId)
  retained.foldl
    (fun acc id =>
      match acc with
      | none => none
      | some r =>
          let records := walReplayRecords (walFileOf id)
          if id = currentWalId then
            match replayRecordsInto keySize records r.currentBuffer with
            | some b => some { r with currentBuffer := b }
            | none => none
          else
            match replayRecordsInto keySize records [] with
            | some b => some { r with flushing := r.flushing ++ [⟨b, id⟩] }
            | none => none)
    (some ⟨deleted, [], []⟩)

/-- The KV state right after `KV::new` returns on an existing directory:
the buffers recovered by `KV::load`, an empty index contribution from the
recovered WALs (the flusher has not run), and the surviving on-disk index
and data store abstracted as `index` and `dataRead`. -/
def stateAfterLoad (keySize walFlushSize : Nat) (fsync : Bool)
    (currentWalId endOffset : Nat) (r : LoadResultM)
    (index : List Nat → Option DataInfoM) (dataRead : Nat → List Nat) :
    KVStateM where
  keySize := keySize
  walFlushSize := walFlushSize
  walFsync := fsync
  currentWalId := currentWalId
  walEndOffset := endOffset
  walRecords := []
  currentBuffer := r.currentBuffer
  flushingBuffers := r.flushing
  index := index
  dataRead := dataRead

/-- One slot of a hash-bucket file as decoded by `Entry::<T>::decode`
(src/kv/index/bucket.rs): the meta byte (`Free`/`Occupied`), the key bytes
and the decoded `DataInfo` value. -/
structure BSlotM where
  occupied : Bool
  key : List Nat
  value : DataInfoM
deriving DecidableEq, Repr

/-- The slot decoded from zero-filled file bytes (a fresh bucket file):
meta 0 = Free, an all-zero key and an all-zero value. -/
def freeSlot (keySize : Nat) : BSlotM :=
  ⟨false, List.replicate keySize 0, ⟨0, 0⟩⟩

/-- The errors of one hash bucket (`enum BucketError`); `Io` and `Other`
never arise in the pure embedding. -/
inductive BucketErrorM where
  | maxSearchReached
  | invalidKeyLength
deriving DecidableEq, Repr

/-- The linear-probing loop of `Bucket::put`: inspect at most
`MAX_SEARCH_DEFAULT = 32` slots starting at `hash(k) % entry_num`; write the
whole slot at the first one that is free or already holds `k`. -/
def bucketPutProbe (keySize : Nat) (slots : List BSlotM) (k : List Nat)
    (v : DataInfoM) (start : Nat) : (remaining : Nat) → (i : Nat) →
    Except BucketErrorM (List BSlotM)
  | 0, _ => .error .maxSearchReached
  | remaining + 1, i =>
      let idx := (start + i) % slots.length
      let slot := slots.getD idx (freeSlot keySize)
      if slot.occupied = false ∨ slot.key = k then
        .ok (slots.set idx ⟨true, k, v⟩)
      else bucketPutProbe keySize slots k v start remaining (i + 1)

/-- `Bucket::put` (src/kv/index/bucket.rs lines 218-257).  `hash` stands for
`DefaultHasher` applied to the key: an arbitrary but fixed function of the
key bytes, deterministic within the process. -/
def bucketPutM (hash : List Nat → Nat) (keySize : Nat) (slots : List BSlotM)
    (k : List Nat) (v : DataInfoM) : Except BucketErrorM (List BSlotM) :=
  if k.length ≠ keySize then .error .invalidKeyLength
  else bucketPutProbe keySize slots k v (hash k % slots.length) 32 0

/-- The inner probe of `Bucket::do_expand` when migrating one occupied entry
into the new file: up to 32 inspections looking for a free slot. -/
def rehashProbe (keySize : Nat) (acc : List BSlotM) (e : BSlotM) :
    (remaining : Nat) → (idx : Nat) → Option (List BSlotM)
  | 0, _ => none
  | remaining + 1, idx =>
      if (acc.getD idx (freeSlot keySize)).occupied = false then
        some (acc.set idx e)
      else rehashProbe keySize acc e remaining ((idx + 1) % acc.length)

/-- `Bucket::do_expand` (src/kv/index/bucket.rs lines 338-400): build a
zero-filled file of `newN` slots and migrate every occupied entry of the old
file in order, hashing into the new modulus; `none` models the
`MaxSearchReached` outcome when some entry needs more than 32 probes. -/
def doExpandM (hash : List Nat → Nat) (keySize : Nat) (slots : List BSlotM)
    (newN : Nat) : Option (List BSlotM) :=
  slots.foldl
    (fun acc e =>
      match acc with
      | none => none
      | some a =>
          if e.occupied then rehashProbe keySize a e 32 (hash e.key % newN)
          else some a)
    (some (List.replicate newN (freeSlot keySize)))

/-- `Bucket::expand` (src/kv/index/bucket.rs lines 318-336): keep doubling
the slot count, starting from the current `entry_num`, until `do_expand`
succeeds.  `fuel` bounds the number of doublings; `none` means the loop is
still running when the fuel runs out. -/
def expandLoopM (hash : List Nat → Nat) (keySize : Nat) (slots : List BSlotM)
    (curN : Nat) : Nat → Option (List BSlotM)
  | 0 => none
  | fuel + 1 =>
      let n2 := curN * 2
      match doExpandM hash keySize slots n2 with
      | some s => some s
      | none => expandLoopM hash keySize slots n2 fuel

/-- The errors of the sharded index (`enum BucketsError`); `Io` and `Other`
never arise in the pure embedding. -/
inductive BucketsErrorM where
  | maxSearchReached
  | invalidKeyLength
deriving DecidableEq, Repr

/-- The sharded hash index (`struct Buckets<T>` in src/kv/index/buckets.rs):
a list of shard slot files plus the fixed key size. -/
structure BucketsM where
  shards : List (List BSlotM)
  keySize : Nat
deriving DecidableEq

/-- `Buckets::put` (src/kv/index/buckets.rs lines 147-165): select the shard
by `hash(k) % bucket_count`; on `MaxSearchReached` from the shard's put,
run `expand()` on that shard and retry; otherwise return the result.
`fuel` bounds the total number of loop iterations (the source loops
without bound); `none` means the loop was still running. -/
def bucketsPutM (hash : List Nat → Nat) (st : BucketsM) (k : List Nat)
    (v : DataInfoM) : Nat → Option (Except BucketsErrorM BucketsM)
  | 0 => none
  | fuel + 1 =>
      let idx := hash k % st.shards.length
      let slots := st.shards.getD idx []
      match bucketPutM hash st.keySize slots k v with
      | .ok slots' => some (.ok { st with shards := st.shards.set idx slots' })
      | .error .invalidKeyLength => some (.error .invalidKeyLength)
      | .error .maxSearchReached =>
          match expandLoopM hash st.keySize slots slots.length fuel with
          | none => none
          | some slots' =>
              bucketsPutM hash { st with shards := st.shards.set idx slots' }
                k v fuel

/-- `Entry::<T>::entry_size` (src/kv/index/bucket.rs lines 92-94):
1 meta byte + `key_size` key bytes + `value_size` value bytes. -/
def entrySizeM (keySize valueSize : Nat) : Nat := 1 + keySize + valueSize

/-- The value size `Buckets::<T>::new` (src/kv/index/buckets.rs line 124)
passes to `Bucket::new`: `size_of::<T>() as u32` with
`T = DataInfo { data_id: u64, data_len: u32 }`.  Under Rust's default struct
layout the alignment of `DataInfo` is 8 (from the `u64` field) and its size
is the field total 12 rounded up to a multiple of the alignment, hence
`size_of::<DataInfo>() = 16`. -/
def sizeOfDataInfoRust : Nat := 16

/-- The on-disk slot width of a bricksKV hash-bucket file: the `entry_size`
a `Bucket` computes from the arguments `Buckets::new` passes it. -/
def bucketSlotWidth (keySize : Nat) : Nat := entrySizeM keySize sizeOfDataInfoRust

/-- `DataInfo::encode` (src/kv.rs lines 52-57): little-endian `u64 data_id`
followed by little-endian `u32 data_len`, 12 bytes. -/
def dataInfoEncode (di : DataInfoM) : List Nat := le64 di.dataId ++ le32 di.dataLen

/-- `DataInfo::decode` (src/kv.rs lines 59-66): requires at least 12 bytes
and parses the little-endian fields. -/
def dataInfoDecode (bs : List Nat) : Option DataInfoM :=
  if bs.length < 12 then none
  else some ⟨readLe64 bs 0, readLe32 bs 8⟩

/-- `Entry::encode` (src/kv/index/bucket.rs lines 68-76): the meta byte
(`Free = 0`, `Occupied = 1`), the key bytes, then the encoded value. -/
def entryEncode (occupied : Bool) (key : List Nat) (di : DataInfoM) : List Nat :=
  (if occupied then 1 else 0) :: (key ++ dataInfoEncode di)

/-- `Entry::decode` (src/kv/index/bucket.rs lines 78-90): needs strictly
more than `1 + key_size` bytes, reads the meta byte (only 0 and 1 are
valid), the key, and decodes the value from the remaining bytes. -/
def entryDecode (bs : List Nat) (keySize : Nat) : Option BSlotM :=
  if bs.length ≤ 1 + keySize then none
  else
    match bs.getD 0 0 with
    | 0 => (dataInfoDecode (bs.drop (1 + keySize))).map
        (fun di => ⟨false, (bs.drop 1).take keySize, di⟩)
    | 1 => (dataInfoDecode (bs.drop (1 + keySize))).map
        (fun di => ⟨true, (bs.drop 1).take keySize, di⟩)
    | _ => none

/-- One slab level's allocator (`struct PageBitmap` in
src/kv/data/level_page_bitmap/page_bitmap.rs): the in-memory hierarchical
bitmap (`levels`, index 0 is the bottom layer, one bit per page), the fixed
page size, and the two backing files.  The on-disk index bit file is
modelled at bit granularity (`indexFileBits`, bit `i` = page `i`, matching
the LSB-first byte packing of `set_file_bit`); the data file is a byte
store (`dataFile` gives the byte at an offset, `dataFileLen` the file
length; bytes past the length read as zero). -/
structure PageBitmapM where
  levels : List (List Bool)
  pageSize : Nat
  indexFileBits : List Bool
  dataFile : Nat → Nat
  dataFileLen : Nat

/-- A placeholder bitmap used as the default of list lookups. -/
def pbDefault : PageBitmapM :=
  { levels := [], pageSize := 0, indexFileBits := [], dataFile := fun _ => 0,
    dataFileLen := 0 }

/-- The bottom layer of the in-memory hierarchy. -/
def layer0 (pb : PageBitmapM) : List Bool := pb.levels.getD 0 []

/-- `PageBitmap::new` on absent files: four all-zero layers of lengths
4096, 512, 64, 8; a 512-byte (4096-bit) all-zero index file; a zero-filled
data file of `4096 * page_size` bytes. -/
def freshPageBitmap (pageSize : Nat) : PageBitmapM where
  levels := [List.replicate 4096 false, List.replicate 512 false,
             List.replicate 64 false, List.replicate 8 false]
  pageSize := pageSize
  indexFileBits := List.replicate 4096 false
  dataFile := fun _ => 0
  dataFileLen := 4096 * pageSize

/-- The number of zero bits of a layer
(`top_level.iter().filter(|b| !**b).count()`). -/
def zeroCount (l : List Bool) : Nat := l.countP (fun b => !b)

/-- `expand_and_zero` on the index file at bit granularity: bits `b1` to
`b2` (exclusive) become zero and the file grows to at least `b2` bits;
existing bits outside the range are preserved (bits past the old length
read as zero, as `FALLOC_FL_ZERO_RANGE` guarantees). -/
def zeroRangeBits (bits : List Bool) (b1 b2 : Nat) : List Bool :=
  (List.range (max bits.length b2)).map
    (fun i => if b1 ≤ i ∧ i < b2 then false else bits.getD i false)

/-- The memory half of the expansion loop of `expand_if_need`: the loop
multiplies `increment` by 8 after each use, so layer `l` is extended by
`8^(top_idx - l)` zero bits. -/
def expandMemLevels (levels : List (List Bool)) : List (List Bool) :=
  (List.range levels.length).map
    (fun l => levels.getD l [] ++
      List.replicate (8 ^ (levels.length - 1 - l)) false)

/-- The 8 folded bits of a new top layer: bit `i` is set only when the
whole 8-bit group below it is set. -/
def foldTop (topL : List Bool) : List Bool :=
  (List.range 8).map (fun i => ((topL.drop (8 * i)).take 8).all (fun b => b))

/-- The final step of `expand_if_need`: push a folded new top layer when
the extended top layer has reached length 64. -/
def pushNewTop (mem : List (List Bool)) : List (List Bool) :=
  match mem.getLast? with
  | some topL => if topL.length = 64 then mem ++ [foldTop topL] else mem
  | none => mem

/-- `PageBitmap::expand_if_need` (src/kv/data/level_page_bitmap/
page_bitmap.rs lines 188-248).  When the top layer has at most one zero bit:
the file-expansion loop multiplies `increment` by 8 *before* using it, so at
layer 0 it extends the index file by `8^(top_idx+1)` bits and the data file
by `8^(top_idx+1)` pages; the memory loop multiplies *after* using it
(`expandMemLevels`); finally a new top layer is pushed when the extended top
reaches length 64 (`pushNewTop`). -/
def expandIfNeed (s : PageBitmapM) : PageBitmapM :=
  if zeroCount (s.levels.getD (s.levels.length - 1) []) > 1 then s
  else
    { levels := pushNewTop (expandMemLevels s.levels),
      pageSize := s.pageSize,
      indexFileBits := zeroRangeBits s.indexFileBits
        (8 * ((s.levels.getD 0 []).length / 8))
        (8 * (((s.levels.getD 0 []).length + 8 ^ (s.levels.length - 1 + 1)) / 8)),
      dataFile := fun off =>
        if (s.levels.getD 0 []).length * s.pageSize ≤ off ∧
            off < ((s.levels.getD 0 []).length + 8 ^ (s.levels.length - 1 + 1)) *
              s.pageSize
        then 0 else s.dataFile off,
      dataFileLen := max s.dataFileLen
        (((s.levels.getD 0 []).length + 8 ^ (s.levels.length - 1 + 1)) *
          s.pageSize) }

/-- The layer-0 scan of `find_and_set`: find the first zero bit at or after
index `i`, set it, and return its position.  `gas` is the remaining
iteration count of the source's `for i in start_index..len` loop. -/
def fasScan0 (levels : List (List Bool)) : (gas i : Nat) →
    Option (List (List Bool) × Nat)
  | 0, _ => none
  | gas + 1, i =>
      if i < (levels.getD 0 []).length then
        if (levels.getD 0 []).getD i false = false then
          some (levels.set 0 ((levels.getD 0 []).set i true), i)
        else fasScan0 levels gas (i + 1)
      else none

/-- The scan of one upper layer: skip fully-allocated groups (bit set) and
try the child search at the first zero bit, falling through to the next
index when the child search fails.  `gas` is the remaining iteration count
of the source's `for i in start_index..len` loop. -/
def fasScanUp (levels : List (List Bool)) (lvl : Nat)
    (child : Nat → Option (List (List Bool) × Nat)) : (gas i : Nat) →
    Option (List (List Bool) × Nat)
  | 0, _ => none
  | gas + 1, i =>
      if i < (levels.getD lvl []).length then
        if (levels.getD lvl []).getD i false = true then
          fasScanUp levels lvl child gas (i + 1)
        else
          match child (i * 8) with
          | some r => some r
          | none => fasScanUp levels lvl child gas (i + 1)
      else none

/-- The recursive `find_and_set` inside `PageBitmap::allocate_page`: scan
layer `lvl` from index `i` (the layer scans are entered with a gas equal to
the source loop's iteration count `len - i`); at layer 0 set and return the
first zero bit; at an upper layer recurse into the child range of each zero
bit.  No layer is mutated until the layer-0 bit of the successful path is
set. -/
def findAndSet (levels : List (List Bool)) : (lvl : Nat) → (i : Nat) →
    Option (List (List Bool) × Nat)
  | 0, i => fasScan0 levels ((levels.getD 0 []).length - i) i
  | l + 1, i =>
      fasScanUp levels (l + 1) (findAndSet levels l)
        ((levels.getD (l + 1) []).length - i) i

/-- The parent-update walk after `allocate_page` sets a layer-0 bit: for
each layer bottom-up, if the 8-child group of the parent is now fully set,
set the parent bit and continue; otherwise stop. -/
def updateParentsAllocGo : (gas : Nat) → (levels : List (List Bool)) →
    (lvl idx : Nat) → List (List Bool)
  | 0, levels, _, _ => levels
  | gas + 1, levels, lvl, idx =>
      if lvl + 1 < levels.length then
        if (((levels.getD lvl []).drop (idx / 8 * 8)).take 8).all (fun b => b) then
          updateParentsAllocGo gas
            (levels.set (lvl + 1) ((levels.getD (lvl + 1) []).set (idx / 8) true))
            (lvl + 1) (idx / 8)
        else levels
      else levels

/-- The walk entry point: the source's `for lvl in 0..levels.len() - 1`
loop runs at most `levels.len()` times, which the gas makes structural. -/
def updateParentsAlloc (levels : List (List Bool)) (lvl idx : Nat) :
    List (List Bool) :=
  updateParentsAllocGo levels.length levels lvl idx

/-- `PageBitmap::allocate_page` (src/kv/data/level_page_bitmap/
page_bitmap.rs lines 126-185): expand if needed, run `find_and_set` from the
top layer (`unwrap` of a failed search is a panic, hence `none`), persist
the bit into the index file, then update the parent layers. -/
def allocatePage (s : PageBitmapM) : Option (PageBitmapM × Nat) :=
  match findAndSet (expandIfNeed s).levels ((expandIfNeed s).levels.length - 1) 0 with
  | none => none
  | some (levels1, p) =>
      some ({ expandIfNeed s with
                levels := updateParentsAlloc levels1 0 p,
                indexFileBits := (expandIfNeed s).indexFileBits.set p true }, p)

/-- The parent-update walk of `free_page`: every parent along the path is
recomputed as the conjunction of its 8 children, bottom-up, with no early
stop. -/
def updateParentsFreeGo : (gas : Nat) → (levels : List (List Bool)) →
    (lvl idx : Nat) → List (List Bool)
  | 0, levels, _, _ => levels
  | gas + 1, levels, lvl, idx =>
      if lvl + 1 < levels.length then
        updateParentsFreeGo gas
          (levels.set (lvl + 1)
            ((levels.getD (lvl + 1) []).set (idx / 8)
              ((((levels.getD lvl []).drop (idx / 8 * 8)).take 8).all (fun b => b))))
          (lvl + 1) (idx / 8)
      else levels

/-- The walk entry point, with the loop bound made structural as for
`updateParentsAlloc`. -/
def updateParentsFree (levels : List (List Bool)) (lvl idx : Nat) :
    List (List Bool) :=
  updateParentsFreeGo levels.length levels lvl idx

/-- `PageBitmap::free_page` (lines 276-301): clear the bit in the index
file and in layer 0, then recompute the parents.  An out-of-range index
panics in the `bitvec` crate, hence `none`. -/
def freePage (s : PageBitmapM) (idx : Nat) : Option PageBitmapM :=
  if idx < (s.levels.getD 0 []).length then
    let levels0 := s.levels.set 0 ((s.levels.getD 0 []).set idx false)
    some { s with
             levels := updateParentsFree levels0 0 idx,
             indexFileBits := s.indexFileBits.set idx false }
  else none

/-- `PageBitmap::write_page` (lines 251-265): allocate a page, reject data
longer than the page size (the source does this check only after the
allocation; the error path is unreachable from `LevelPage::write`, which
routes values to a level whose page fits), then write the bytes at
`page_idx * page_size`. -/
def writePage (s : PageBitmapM) (data : List Nat) : Option (PageBitmapM × Nat) :=
  match allocatePage s with
  | none => none
  | some (s1, p) =>
      if data.length > s1.pageSize then none
      else
        let off := p * s1.pageSize
        some ({ s1 with
            dataFile := fun o =>
              if off ≤ o ∧ o < off + data.length then data.getD (o - off) 0
              else s1.dataFile o,
            dataFileLen := max s1.dataFileLen (off + data.length) }, p)

/-- `PageBitmap::read_page` (lines 268-273): a `page_size` buffer of zeros
filled by `read_at` from `page_idx * page_size`; bytes past the end of the
file stay zero. -/
def readPage (s : PageBitmapM) (p : Nat) : List Nat :=
  (List.range s.pageSize).map
    (fun i =>
      if p * s.pageSize + i < s.dataFileLen then s.dataFile (p * s.pageSize + i)
      else 0)

/-- One folding step of `recover_from_file`: each 8-bit chunk of the lower
layer becomes one parent bit that is set only when the whole chunk is set. -/
def foldBits (l : List Bool) : List Bool :=
  (List.range ((l.length + 7) / 8)).map
    (fun i => ((l.drop (8 * i)).take 8).all (fun b => b))

/-- The `while levels.last().len() > 8` loop of `recover_from_file`:
repeatedly push the folded layer until the top has at most 8 bits. -/
def buildUpperGo : (gas : Nat) → (acc : List (List Bool)) →
    (cur : List Bool) → List (List Bool)
  | 0, acc, _ => acc
  | gas + 1, acc, cur =>
      if 8 < cur.length then
        buildUpperGo gas (acc ++ [foldBits cur]) (foldBits cur)
      else acc

/-- The loop entry point: each iteration shrinks the top layer to an eighth
(rounded up), so `cur.length` iterations always outlast the loop. -/
def buildUpperFrom (acc : List (List Bool)) (cur : List Bool) :
    List (List Bool) :=
  buildUpperGo cur.length acc cur

/-- `PageBitmap::recover_from_file` (lines 65-123): checks that the data
file length is a multiple of the page size and equals
`index_len * 8 * page_size` (with `indexFileBits` already at bit
granularity, `index_len * 8` is `indexFileBits.length`), loads layer 0 from
the index file and rebuilds the upper layers. -/
def recoverFromFile (indexBits : List Bool) (pageSize : Nat)
    (dataFile : Nat → Nat) (dataLen : Nat) : Option PageBitmapM :=
  if pageSize = 0 then none
  else if dataLen % pageSize ≠ 0 then none
  else if dataLen ≠ indexBits.length * pageSize then none
  else
    some { levels := buildUpperFrom [indexBits] indexBits,
           pageSize := pageSize, indexFileBits := indexBits,
           dataFile := dataFile, dataFileLen := dataLen }

/-- The size-classed value store (`struct LevelPage` in
src/kv/data/level_page_bitmap.rs): the per-level allocators and the
deduplicated list of level page sizes used for routing. -/
structure LevelPageM where
  levels : List PageBitmapM
  levelsPageSize : List Nat

/-- The `levels_page_size` list built by `LevelPage::new`: page sizes in
meta order, skipping duplicates. -/
def dedupSizes (sizes : List Nat) : List Nat :=
  sizes.foldl (fun acc s => if s ∈ acc then acc else acc ++ [s]) []

/-- `LevelPage::new` on a fresh directory with the given configured page
sizes: one fresh `PageBitmap` per meta entry. -/
def freshLevelPage (sizes : List Nat) : LevelPageM where
  levels := sizes.map freshPageBitmap
  levelsPageSize := dedupSizes sizes

/-- The page sizes of the default configuration
`Pow2 { start_page_size: 32, level_count: 8 }`. -/
def defaultSizes : List Nat := (List.range 8).map (fun i => 32 * 2 ^ i)

/-- The data-id encoding of `LevelPage::write`:
`(level_idx as u64) << 56 | (page_idx & 0x00FF_FFFF_FFFF_FFFF)`, with the
`u64` truncation of the shifted level index made explicit. -/
def encodeDataId (levelIdx pageIdx : Nat) : Nat :=
  ((levelIdx <<< 56) % 2 ^ 64) ||| (pageIdx &&& (2 ^ 56 - 1))

/-- The data-id decoding used by `LevelPage::read` and `LevelPage::free`:
the level is the top byte, the page index the low 56 bits. -/
def decodeLevel (dataId : Nat) : Nat := dataId >>> 56

/-- The low 56 bits of a data id. -/
def decodePage (dataId : Nat) : Nat := dataId &&& (2 ^ 56 - 1)

/-- `LevelPage::write` (src/kv/data/level_page_bitmap.rs lines 152-171):
assert the value fits the last configured page size (a failed assert or an
`unwrap` of no suitable level is a panic, hence `none`), route to the first
level whose page size is at least the value length, write a page there and
encode the data id. -/
def levelPageWrite (lp : LevelPageM) (value : List Nat) :
    Option (Nat × LevelPageM) :=
  match lp.levelsPageSize.getLast? with
  | none => none
  | some lastPs =>
      if value.length ≤ lastPs then
        match lp.levelsPageSize.findIdx? (fun ps => value.length ≤ ps) with
        | none => none
        | some li =>
            match lp.levels[li]? with
            | none => none
            | some pb =>
                match writePage pb value with
                | none => none
                | some (pb', p) =>
                    some (encodeDataId li p,
                      { lp with levels := lp.levels.set li pb' })
      else none

/-- `LevelPage::read` (lines 181-193): reject a level index beyond the
configured levels, then read the whole page of the level. -/
def levelPageRead (lp : LevelPageM) (dataId : Nat) : Option (List Nat) :=
  let level := decodeLevel dataId
  if level < lp.levels.length then
    some (readPage (lp.levels.getD level pbDefault) (decodePage dataId))
  else none

/-- `LevelPage::free` (lines 173-178): dispatch to the level's
`free_page` (indexing a missing level is a panic, hence `none`). -/
def levelPageFree (lp : LevelPageM) (dataId : Nat) : Option LevelPageM :=
  match lp.levels[decodeLevel dataId]? with
  | none => none
  | some pb =>
      match freePage pb (decodePage dataId) with
      | none => none
      | some pb' => some { lp with levels := lp.levels.set (decodeLevel dataId) pb' }

/-- An operation against the value store, as issued by the flusher. -/
inductive LPOpM where
  | write (value : List Nat)
  | free (dataId : Nat)
deriving DecidableEq, Repr

/-- One operation step on the value store; a panic or error is `none`. -/
def lpStep (lp : LevelPageM) : LPOpM → Option LevelPageM
  | .write v => (levelPageWrite lp v).map (fun r => r.2)
  | .free id => levelPageFree lp id

/-- Runs a list of operations, stopping at the first panic or error. -/
def lpRun (lp : LevelPageM) : List LPOpM → Option LevelPageM
  | [] => some lp
  | op :: rest =>
      match lpStep lp op with
      | none => none
      | some lp' => lpRun lp' rest

/-- The protection predicate for one allocator level: page `p` is allocated
(layer-0 bit set) and the data file holds `v` at the page's offsets, with
the file long enough to cover it.  This is what a successful `write_page`
of `v` establishes and what every later operation that does not free `p`
preserves. -/
def PbProtects (pb : PageBitmapM) (p : Nat) (v : List Nat) (ps : Nat) : Prop :=
  pb.pageSize = ps ∧
  p < (layer0 pb).length ∧
  (layer0 pb).getD p false = true ∧
  v.length ≤ ps ∧
  (∀ i, i < v.length → pb.dataFile (p * ps + i) = v.getD i 0) ∧
  p * ps + v.length ≤ pb.dataFileLen

/-- The protection predicate lifted to the whole value store: level `li`
exists and protects page `p` with contents `v`. -/
def LpProtects (lp : LevelPageM) (li p : Nat) (v : List Nat) (ps : Nat) : Prop :=
  li < lp.levels.length ∧ PbProtects (lp.levels.getD li pbDefault) p v ps

/-- The page size of the level a data id refers to, in a given store. -/
def levelPageSizeAt (lp : LevelPageM) (dataId : Nat) : Nat :=
  (lp.levels.getD (decodeLevel dataId) pbDefault).pageSize

/-- Runs batches and then reads a key, propagating errors. -/
def getAfterBatches (s : KVStateM) (bs : List (List (List Nat × KVOpM)))
    (k : List Nat) : Except KVErrorM (Option (List Nat)) :=
  match runKV s bs with
  | .ok s' => getM s' k
  | .error e => .error e

/-- A state with two sealed flushing buffers holding the same key with
different ops: the older (index 0) maps the key to `Put [1]`, the newer
(index 1, pushed later) maps it to `Put [2]`. -/
def c3State : KVStateM :=
  { initStateM 1 100 true with
      flushingBuffers := [⟨[([0], KVOpM.put [1])], 0⟩, ⟨[([0], KVOpM.put [2])], 1⟩] }

/-- The key of the C2 recovery scenario (key_size = 4). -/
def c2Key : List Nat := [9, 9, 9, 9]

/-- The WAL file produced by `put(c2Key, [1,2,3])` with `fsync = true`:
one record whose payload is the batch encoding of the single put. -/
def c2WalFile : List Nat :=
  walRecordBytes (batchPayload 4 [(c2Key, KVOpM.put [1, 2, 3])])

/-- The result of `get(c2Key)` immediately after re-opening the directory:
`KV::load` replays the surviving WAL 0 into the current buffer, then
`KV::get` runs on the recovered state (the flusher never ran, so the index
is still empty). -/
def c2RecoveredGet : Except KVErrorM (Option (List Nat)) :=
  match loadModel 4 [0] 0 (fun _ => c2WalFile) with
  | some r =>
      getM (stateAfterLoad 4 (4 * 1024 * 1024) true 0 c2WalFile.length r
        (fun _ => none) (fun _ => [])) c2Key
  | none => .error (.other [])

/-- WAL files for the C4 recovery scenario: file `id` holds one record,
a single-put batch with key `[0]` and value `[id]` (key_size = 1). -/
def c4Files : Nat → List Nat := fun id =>
  walRecordBytes (batchPayload 1 [([0], KVOpM.put [id % 256])])

/-- `KV::load` on a WAL directory holding ids 0, 1, 2, 3 that `read_dir`
happens to enumerate as `[1, 3, 0, 2]`, with `meta.current_wal_id = 2`. -/
def c4Load : Option LoadResultM := loadModel 1 [1, 3, 0, 2] 2 c4Files

/-- An on-disk index bit file of 64 bits with a single zero bit: the state
of a level after 63 of its 64 pages were allocated and the process
restarted. -/
def c9IndexBits : List Bool := List.replicate 63 true ++ [false]

/-- The `PageBitmap` recovered from `c9IndexBits` with page size 16 and a
matching 1024-byte data file. -/
def c9Rec : PageBitmapM :=
  (recoverFromFile c9IndexBits 16 (fun _ => 0) (64 * 16)).getD pbDefault

/-- A small single-level value store for the C5 witness: one level of page
size 32 whose allocator was recovered from an all-zero 64-bit index file
(64 free pages), as `LevelPage::new` builds on an existing directory. -/
def c5WitLP : LevelPageM :=
  { levels := [(recoverFromFile (List.replicate 64 false) 32 (fun _ => 0)
      (64 * 32)).getD pbDefault],
    levelsPageSize := [32] }

/-- The store after writing the value `[1, 2, 3]` into `c5WitLP`. -/
def c5AfterWrite : LevelPageM :=
  ((levelPageWrite c5WitLP [1, 2, 3]).getD (0, c5WitLP)).2

/-- The batches of the C10 witness: two single-put batches, each of which
overflows the zero-size WAL threshold and rotates. -/
def c10WitBatches : List (List (List Nat × KVOpM)) :=
  [[([0], KVOpM.put [5])], [([0], KVOpM.put [6])]]

/-- The state reached by the C10 witness run (opened with `fsync = false`). -/
def c10WitState : KVStateM :=
  match runKV (initStateM 1 0 false) c10WitBatches with
  | .ok s => s
  | .error _ => initStateM 1 0 false

/-- The sharded index of the C7 witness: one shard of four free slots,
key size 1. -/
def c7WitBuckets : BucketsM :=
  { shards := [List.replicate 4 (freeSlot 1)], keySize := 1 }

/-- The result of the C7 witness put. -/
def c7WitRes : Option (Except BucketsErrorM BucketsM) :=
  bucketsPutM (fun _ => 0) c7WitBuckets [3] ⟨7, 1⟩ 5

deriving instance DecidableEq for Except

set_option maxRecDepth 4000

/-- Helper: a batch with an invalid key makes `batchHasInvalidKey` true. -/
theorem batchHasInvalidKey_of_mem (keySize : Nat)
    (ops : List (List Nat × KVOpM)) (p : List Nat × KVOpM) (hp : p ∈ ops)
    (hne : p.1.length ≠ keySize) : batchHasInvalidKey keySize ops = true := by
  unfold batchHasInvalidKey
  rw [List.any_eq_true]
  exact ⟨p, hp, by simpa using hne⟩

/-- C6: a batch containing at least one key whose length differs from
`key_size` makes `do_batch` (and hence `put` and `delete`, which wrap a
single-op batch) return `Err(InvalidKeyLength)` synchronously.  The model
returns the error before any state component is produced, mirroring the
source, which validates while building the payload, before the WAL write
and the buffer update: no WAL record is appended, the buffers are untouched
and no entry of the batch is applied. -/
theorem c6_invalid_key_rejects_whole_batch (s : KVStateM)
    (ops : List (List Nat × KVOpM)) (h : ∃ p ∈ ops, p.1.length ≠ s.keySize) :
    doBatchM s ops = .error .invalidKeyLength := by
  obtain ⟨p, hp, hne⟩ := h
  have hb := batchHasInvalidKey_of_mem s.keySize ops p hp hne
  simp [doBatchM, hb]

/-- Witness for C6: a one-byte key in a store with `key_size = 2`. -/
theorem c6_witness :
    (∃ p ∈ [([0], KVOpM.put [1])], p.1.length ≠ (initStateM 2 100 true).keySize) ∧
    doBatchM (initStateM 2 100 true) [([0], KVOpM.put [1])] =
      .error .invalidKeyLength :=
  ⟨by decide, c6_invalid_key_rejects_whole_batch (initStateM 2 100 true)
    [([0], KVOpM.put [1])] (by decide)⟩

/-- C1 (code bug): from a fresh store with `key_size = 1` and
`wal_flush_size = 0`, `put(K, [5])` and then `put(K, [7])` each rotate the
WAL and seal their buffer; the immediately following `get(K)` — with no
operation in between — returns `Ok(Some [5])`, not `Ok(Some [7])`, because
`KV::get` scans `flushing_buffers` front to back, i.e. oldest first, and
the stale sealed buffer wins. -/
theorem c1_put_get_returns_stale_value :
    getAfterBatches (initStateM 1 0 false)
      [[([0], KVOpM.put [5])], [([0], KVOpM.put [7])]] [0] = .ok (some [5]) ∧
    some [5] ≠ some ([7] : List Nat) := by
  constructor
  · decide
  · decide

/-- C3 (code bug): in a state whose two sealed flushing buffers both hold
key `[0]` — the older with `Put [1]`, the newer with `Put [2]` — `KV::get`
returns the op of the *oldest* flushing buffer, `Ok(Some [1])`, because it
iterates the `Vec` front to back; the claim's newest-first scan would
return `Some [2]`, the op of the newest buffer (the last list element). -/
theorem c3_get_scans_oldest_first :
    getM c3State [0] = .ok (some [1]) ∧
    bufLookup (c3State.flushingBuffers.getLastD ⟨[], 0⟩).buffer [0] =
      some (KVOpM.put [2]) ∧
    some [1] ≠ some ([2] : List Nat) := by
  refine ⟨by decide, by decide, by decide⟩

/-- C2 (code bug): after `put(c2Key, [1,2,3])` with `fsync = true` and a
stop before any flush, re-opening replays WAL 0, but the replay loop starts
decoding at offset 0 of the payload — at the `u32 total_size` header — so
the single decoded entry has a mangled key (the header bytes followed by a
key fragment) and `get(c2Key)` returns `Ok(None)` instead of
`Ok(Some [1,2,3])`.  A correct decoder would reproduce the written binding,
as the third conjunct shows for the in-memory fold of the same batch. -/
theorem c2_recovery_loses_put :
    c2RecoveredGet = .ok none ∧
    (none : Option (List Nat)) ≠ some [1, 2, 3] ∧
    bufLookup (bufExtend [] [(c2Key, KVOpM.put [1, 2, 3])]) c2Key =
      some (KVOpM.put [1, 2, 3]) := by
  refine ⟨by decide, by decide, by decide⟩

/-- C4 (code bug): with WAL files 0, 1, 2, 3 on disk, `current_wal_id = 2`,
and the directory enumerated as `[1, 3, 0, 2]` (`get_all_wal_ids` performs
no sorting and `read_dir` order is arbitrary), `KV::load` deletes id 3 as
claimed, but pushes the sealed buffers in enumeration order `[1, 0]` —
not in the ascending order `[0, 1]` the claim states. -/
theorem c4_replay_follows_directory_order :
    (c4Load.map (fun r => (r.deletedIds, r.flushing.map (fun fb => fb.walId))))
      = some ([3], [1, 0]) ∧
    [1, 0] ≠ ([0, 1] : List Nat) := by
  refine ⟨by decide, by decide⟩

/-- C9 (code bug): a `PageBitmap` recovered from a 64-bit index file with a
single zero bit initially mirrors the file bit for bit, but the next
`expand_if_need` grows the in-memory layer 0 to 72 bits while growing the
index file to 128 bits (the file loop multiplies `increment` by 8 before
using it, the memory loop after), so the layer-0 bit-vector and the file no
longer have the same length. -/
theorem c9_expand_breaks_file_mirror :
    recoverFromFile c9IndexBits 16 (fun _ => 0) (64 * 16) = some c9Rec ∧
    layer0 c9Rec = c9Rec.indexFileBits ∧
    (layer0 (expandIfNeed c9Rec)).length = 72 ∧
    (expandIfNeed c9Rec).indexFileBits.length = 128 ∧
    (layer0 (expandIfNeed c9Rec)).length ≠ (expandIfNeed c9Rec).indexFileBits.length :=
  ⟨rfl, by decide, by decide, by decide, by decide⟩

/-- Helper for C10: one `do_batch` either keeps the WAL id and the fsync
flag, or rotates, incrementing the id and opening the new WAL with
`fsync = true` (`WAL::open(next_wal_path.as_path(), true)`). -/
theorem doBatchM_walFsync (s : KVStateM) (ops : List (List Nat × KVOpM))
    (s' : KVStateM) (h : doBatchM s ops = .ok s') :
    (s'.currentWalId = s.currentWalId ∧ s'.walFsync = s.walFsync) ∨
    (s'.currentWalId = s.currentWalId + 1 ∧ s'.walFsync = true) := by
  unfold doBatchM at h
  by_cases h1 : batchHasInvalidKey s.keySize ops
  · simp [h1] at h
  · by_cases h2 :
        s.walEndOffset + 4 + (batchPayload s.keySize ops).length > s.walFlushSize
    · simp only [h1, h2, Bool.false_eq_true, if_false, if_true, ite_true,
        ite_false, Except.ok.injEq] at h
      subst h
      exact .inr ⟨by simp [h2], by simp [h2]⟩
    · simp only [h1, h2, Bool.false_eq_true, if_false, if_true, ite_true,
        ite_false, Except.ok.injEq] at h
      subst h
      exact .inl ⟨by simp [h2], by simp [h2]⟩

/-- Helper for C10: along any successful run, once the WAL id is nonzero
the fsync flag is stuck at `true`, and while the id is still 0 the flag is
the configured one. -/
theorem runKV_fsync_inv (f0 : Bool) :
    ∀ (bs : List (List (List Nat × KVOpM))) (s s' : KVStateM),
      runKV s bs = .ok s' →
      (s.currentWalId = 0 → s.walFsync = f0) →
      (s.currentWalId ≠ 0 → s.walFsync = true) →
      (s'.currentWalId = 0 → s'.walFsync = f0) ∧
      (s'.currentWalId ≠ 0 → s'.walFsync = true) := by
  intro bs
  induction bs with
  | nil =>
      intro s s' h h1 h2
      simp only [runKV] at h
      cases h
      exact ⟨h1, h2⟩
  | cons b rest ih =>
      intro s s' h h1 h2
      unfold runKV at h
      cases hb : doBatchM s b with
      | error e => rw [hb] at h; cases h
      | ok s1 =>
          rw [hb] at h
          rcases doBatchM_walFsync s b s1 hb with ⟨hid, hf⟩ | ⟨hid, hf⟩
          · exact ih s1 s' h (fun hz => by rw [hf]; exact h1 (hid ▸ hz))
              (fun hz => by rw [hf]; exact h2 (fun hc => hz (by rw [hid, hc])))
          · exact ih s1 s' h (fun hz => by rw [hid] at hz; cases hz)
              (fun _ => hf)

/-- C10: the configured `wal_fsync` applies only to the WAL opened by
`KV::new`; on rotation `do_batch` opens the replacement WAL with `fsync`
hard-coded to `true`.  Along any successful run from a fresh store (for any
configured flag, in particular `false`): while no rotation has happened the
flag is the configured one, and once the WAL id is nonzero — i.e. after the
first rotation — the flag is `true` and every subsequent `write_record`
performs `sync_all`. -/
theorem c10_rotation_forces_fsync (f0 : Bool) (ks fs : Nat)
    (bs : List (List (List Nat × KVOpM))) (s' : KVStateM)
    (h : runKV (initStateM ks fs f0) bs = .ok s') :
    (s'.currentWalId = 0 → s'.walFsync = f0) ∧
    (s'.currentWalId ≠ 0 → s'.walFsync = true ∧ writeRecordSyncsM s' = true) := by
  have hmain := runKV_fsync_inv f0 bs (initStateM ks fs f0) s' h
    (fun _ => rfl) (fun hne => absurd rfl hne)
  exact ⟨hmain.1, fun hne => ⟨hmain.2 hne, hmain.2 hne⟩⟩

/-- Witness for C10: opened with `fsync = false`, `wal_flush_size = 0`; two
puts rotate twice; the final state has WAL id 2 and fsync forced on. -/
theorem c10_witness :
    runKV (initStateM 1 0 false) c10WitBatches = .ok c10WitState ∧
    c10WitState.currentWalId ≠ 0 ∧
    c10WitState.walFsync = true ∧ writeRecordSyncsM c10WitState = true := by
  refine ⟨rfl, by decide, ?_⟩
  exact (c10_rotation_forces_fsync false 1 0 c10WitBatches c10WitState rfl).2
    (by decide)

/-- C7: for a key of valid length, `Buckets::put` never returns
`MaxSearchReached`: whenever the shard's `Bucket::put` reports it, the
caller runs `expand()` on that shard (doubling the slot count, and doubling
again inside `expand` whenever rehashing some key into the new file needs
more than 32 probes) and retries the put.  Formally: whatever result the
retry loop returns — for any fuel bound on the loop, `none` meaning the
loop was still running — it is never `Err(MaxSearchReached)`. -/
theorem c7_buckets_put_never_max_search (hash : List Nat → Nat) :
    ∀ (fuel : Nat) (st : BucketsM) (k : List Nat) (v : DataInfoM)
      (r : Except BucketsErrorM BucketsM),
      k.length = st.keySize → bucketsPutM hash st k v fuel = some r →
      r ≠ .error .maxSearchReached := by
  intro fuel
  induction fuel with
  | zero => intro st k v r hk h; simp [bucketsPutM] at h
  | succ n ih =>
      intro st k v r hk h
      unfold bucketsPutM at h
      simp only [] at h
      cases hput : bucketPutM hash st.keySize
          (st.shards.getD (hash k % st.shards.length) []) k v with
      | ok slots' =>
          rw [hput] at h
          simp only [Option.some.injEq] at h
          subst h
          simp
      | error e =>
          rw [hput] at h
          cases e with
          | invalidKeyLength =>
              simp only [Option.some.injEq] at h
              subst h
              simp
          | maxSearchReached =>
              cases hexp : expandLoopM hash st.keySize
                  (st.shards.getD (hash k % st.shards.length) [])
                  (st.shards.getD (hash k % st.shards.length) []).length n with
              | none => rw [hexp] at h; cases h
              | some slots' =>
                  rw [hexp] at h
                  exact ih _ k v r (by simpa using hk) h

/-- Witness for C7: a valid-length key put into a one-shard index with four
free slots succeeds, and the returned result is not `MaxSearchReached`. -/
theorem c7_witness :
    ([3] : List Nat).length = c7WitBuckets.keySize ∧
    bucketsPutM (fun _ => 0) c7WitBuckets [3] ⟨7, 1⟩ 5 =
      some (.ok { shards := [(List.replicate 4 (freeSlot 1)).set 0 ⟨true, [3], ⟨7, 1⟩⟩],
                  keySize := 1 }) ∧
    (Except.ok { shards := [(List.replicate 4 (freeSlot 1)).set 0 ⟨true, [3], ⟨7, 1⟩⟩],
                 keySize := 1 } : Except BucketsErrorM BucketsM) ≠
      .error .maxSearchReached :=
  ⟨by decide, by decide,
    c7_buckets_put_never_max_search (fun _ => 0) 5 c7WitBuckets [3] ⟨7, 1⟩ _
      (by decide) (by decide)⟩

/-- Helper: reading back a `u64` written little-endian at the head. -/
theorem le64_readLe64 (a : Nat) (ha : a < 2 ^ 64) (rest : List Nat) :
    readLe64 (le64 a ++ rest) 0 = a := by
  simp [le64, readLe64, List.getD]
  omega

/-- Helper: reading back a `u32` written little-endian after a `u64`. -/
theorem le32_readLe32_at8 (a b : Nat) (hb : b < 2 ^ 32) (rest : List Nat) :
    readLe32 (le64 a ++ (le32 b ++ rest)) 8 = b := by
  simp [le64, le32, readLe32, List.getD]
  omega

/-- Helper: `DataInfo::decode` inverts `DataInfo::encode` on the 16-byte
value region of a slot (12 encoded bytes plus 4 padding bytes). -/
theorem dataInfoDecode_encode_pad (di : DataInfoM) (h1 : di.dataId < 2 ^ 64)
    (h2 : di.dataLen < 2 ^ 32) :
    dataInfoDecode (le64 di.dataId ++ (le32 di.dataLen ++ [0, 0, 0, 0])) = some di := by
  unfold dataInfoDecode
  rw [if_neg]
  · have e1 := le64_readLe64 di.dataId h1 (le32 di.dataLen ++ [0, 0, 0, 0])
    have e2 := le32_readLe32_at8 di.dataId di.dataLen h2 [0, 0, 0, 0]
    cases di
    simp_all
  · simp [le64, le32]

/-- C8 counterexample: the claim says a slot occupies `1 + key_size + 12`
bytes, but `Buckets::new` passes `size_of::<DataInfo>() = 16` (the 12 field
bytes padded to the `u64` alignment) as the value size, so with the default
`key_size = 32` a slot occupies 49 bytes, not 45. -/
theorem c8_slot_width_counterexample :
    bucketSlotWidth 32 = 49 ∧ bucketSlotWidth 32 ≠ 1 + 32 + 12 := by
  refine ⟨by decide, by decide⟩

/-- C8 (amended): every slot occupies `1 + key_size + 16` bytes on disk;
only the first `1 + key_size + 12` bytes are meaningful — one meta byte
(0 = Free, 1 = Occupied), `key_size` key bytes, the little-endian `u64`
`data_id` and the little-endian `u32` `data_len` — and the trailing 4 bytes
are untouched padding (zero in a fresh file), which `Entry::decode` ignores;
all slots in a file have this identical layout. -/
theorem c8_slot_layout_amended (keySize : Nat) (occupied : Bool)
    (key : List Nat) (di : DataInfoM) (hk : key.length = keySize)
    (h1 : di.dataId < 2 ^ 64) (h2 : di.dataLen < 2 ^ 32) :
    bucketSlotWidth keySize = 1 + keySize + 16 ∧
    (entryEncode occupied key di).length = 1 + keySize + 12 ∧
    entryEncode occupied key di =
      (if occupied then 1 else 0) :: (key ++ (le64 di.dataId ++ le32 di.dataLen)) ∧
    entryDecode (entryEncode occupied key di ++ [0, 0, 0, 0]) keySize =
      some ⟨occupied, key, di⟩ := by
  refine ⟨rfl, ?_, rfl, ?_⟩
  · simp [entryEncode, dataInfoEncode, le64, le32, hk]
    omega
  · have hdec := dataInfoDecode_encode_pad di h1 h2
    have hdropA : ∀ m : Nat,
        ((m : Nat) :: (key ++ (le64 di.dataId ++ (le32 di.dataLen ++ [0, 0, 0, 0])))).drop
          (1 + keySize) = le64 di.dataId ++ (le32 di.dataLen ++ [0, 0, 0, 0]) := by
      intro m
      rw [Nat.add_comm 1 keySize, List.drop_succ_cons]
      exact List.drop_left' hk
    have htakeA : (key ++ (le64 di.dataId ++ (le32 di.dataLen ++ [0, 0, 0, 0]))).take
        keySize = key := List.take_left' hk
    have hlenA : ∀ m : Nat,
        ¬ (((m : Nat) :: (key ++ (le64 di.dataId ++ (le32 di.dataLen ++ [0, 0, 0, 0])))).length
          ≤ 1 + keySize) := by
      intro m
      simp [le64, le32, hk]
      omega
    cases occupied with
    | true =>
        have hbs : entryEncode true key di ++ [0, 0, 0, 0] =
            1 :: (key ++ (le64 di.dataId ++ (le32 di.dataLen ++ [0, 0, 0, 0]))) := by
          simp [entryEncode, dataInfoEncode]
        rw [hbs]
        unfold entryDecode
        rw [if_neg (hlenA 1)]
        rw [show ((1 : Nat) :: (key ++ (le64 di.dataId ++
          (le32 di.dataLen ++ [0, 0, 0, 0])))).getD 0 0 = 1 from rfl]
        rw [hdropA 1, hdec]
        simp only [List.drop_succ_cons, List.drop_zero, htakeA]
        rfl
    | false =>
        have hbs : entryEncode false key di ++ [0, 0, 0, 0] =
            0 :: (key ++ (le64 di.dataId ++ (le32 di.dataLen ++ [0, 0, 0, 0]))) := by
          simp [entryEncode, dataInfoEncode]
        rw [hbs]
        unfold entryDecode
        rw [if_neg (hlenA 0)]
        rw [show ((0 : Nat) :: (key ++ (le64 di.dataId ++
          (le32 di.dataLen ++ [0, 0, 0, 0])))).getD 0 0 = 0 from rfl]
        rw [hdropA 0, hdec]
        simp only [List.drop_succ_cons, List.drop_zero, htakeA]
        rfl

/-- Witness for C8's amended layout: a 32-byte key with a concrete value. -/
theorem c8_witness :
    (List.replicate 32 7).length = 32 ∧ (5 : Nat) < 2 ^ 64 ∧ (3 : Nat) < 2 ^ 32 ∧
    (bucketSlotWidth 32 = 1 + 32 + 16 ∧
     (entryEncode true (List.replicate 32 7) ⟨5, 3⟩).length = 1 + 32 + 12 ∧
     entryEncode true (List.replicate 32 7) ⟨5, 3⟩ =
       (if true then 1 else 0) :: (List.replicate 32 7 ++ (le64 5 ++ le32 3)) ∧
     entryDecode (entryEncode true (List.replicate 32 7) ⟨5, 3⟩ ++ [0, 0, 0, 0]) 32 =
       some ⟨true, List.replicate 32 7, ⟨5, 3⟩⟩) :=
  ⟨by decide, by decide, by decide,
    c8_slot_layout_amended 32 true (List.replicate 32 7) ⟨5, 3⟩ (by decide)
      (by decide) (by decide)⟩

theorem fasScan0_spec (levels : List (List Bool)) :
    ∀ (gas i : Nat) (levels' : List (List Bool)) (p : Nat),
      fasScan0 levels gas i = some (levels', p) →
      p < (levels.getD 0 []).length ∧ (levels.getD 0 []).getD p false = false ∧
      levels' = levels.set 0 ((levels.getD 0 []).set p true) := by
  intro gas
  induction gas with
  | zero => intro i l' p h; simp [fasScan0] at h
  | succ g ih =>
      intro i l' p h
      unfold fasScan0 at h
      split at h
      · split at h
        next hbit =>
          simp only [Option.some.injEq, Prod.mk.injEq] at h
          obtain ⟨h1, h2⟩ := h
          subst h2
          subst h1
          exact ⟨by assumption, hbit, rfl⟩
        next hbit => exact ih (i + 1) l' p h
      · cases h

theorem fasScanUp_spec (levels : List (List Bool)) (lvl : Nat)
    (child : Nat → Option (List (List Bool) × Nat))
    (hchild : ∀ j levels' p, child j = some (levels', p) →
      p < (levels.getD 0 []).length ∧ (levels.getD 0 []).getD p false = false ∧
      levels' = levels.set 0 ((levels.getD 0 []).set p true)) :
    ∀ (gas i : Nat) (levels' : List (List Bool)) (p : Nat),
      fasScanUp levels lvl child gas i = some (levels', p) →
      p < (levels.getD 0 []).length ∧ (levels.getD 0 []).getD p false = false ∧
      levels' = levels.set 0 ((levels.getD 0 []).set p true) := by
  intro gas
  induction gas with
  | zero => intro i l' p h; simp [fasScanUp] at h
  | succ g ih =>
      intro i l' p h
      unfold fasScanUp at h
      split at h
      · split at h
        · exact ih (i + 1) l' p h
        · cases hc : child (i * 8) with
          | some r =>
              rw [hc] at h
              simp only [Option.some.injEq] at h
              subst h
              exact hchild (i * 8) l' p hc
          | none =>
              rw [hc] at h
              exact ih (i + 1) l' p h
      · cases h

theorem findAndSet_spec (levels : List (List Bool)) :
    ∀ (lvl i : Nat) (levels' : List (List Bool)) (p : Nat),
      findAndSet levels lvl i = some (levels', p) →
      p < (levels.getD 0 []).length ∧ (levels.getD 0 []).getD p false = false ∧
      levels' = levels.set 0 ((levels.getD 0 []).set p true) := by
  intro lvl
  induction lvl with
  | zero =>
      intro i l' p h
      exact fasScan0_spec levels _ i l' p h
  | succ l ih =>
      intro i l' p h
      exact fasScanUp_spec levels (l + 1) (findAndSet levels l)
        (fun j => ih j) _ i l' p h

theorem getD_append_left {α : Type _} (l t : List α) (d : α) (q : Nat)
    (h : q < l.length) : (l ++ t).getD q d = l.getD q d := by
  simp [List.getD_eq_getElem?_getD, List.getElem?_append_left h]

theorem updateParentsAllocGo_layer0 :
    ∀ (gas : Nat) (levels : List (List Bool)) (lvl idx : Nat),
      (updateParentsAllocGo gas levels lvl idx).getD 0 [] = levels.getD 0 [] ∧
      (updateParentsAllocGo gas levels lvl idx).length = levels.length := by
  intro gas
  induction gas with
  | zero => intro levels lvl idx; exact ⟨rfl, rfl⟩
  | succ g ih =>
      intro levels lvl idx
      unfold updateParentsAllocGo
      split
      · split
        · have h2 := ih (levels.set (lvl + 1)
            ((levels.getD (lvl + 1) []).set (idx / 8) true)) (lvl + 1) (idx / 8)
          refine ⟨?_, ?_⟩
          · rw [h2.1]
            simp [List.getD_eq_getElem?_getD, List.getElem?_set_ne
              (by omega : lvl + 1 ≠ 0)]
          · rw [h2.2]
            simp
        · exact ⟨rfl, rfl⟩
      · exact ⟨rfl, rfl⟩

theorem updateParentsFreeGo_layer0 :
    ∀ (gas : Nat) (levels : List (List Bool)) (lvl idx : Nat),
      (updateParentsFreeGo gas levels lvl idx).getD 0 [] = levels.getD 0 [] ∧
      (updateParentsFreeGo gas levels lvl idx).length = levels.length := by
  intro gas
  induction gas with
  | zero => intro levels lvl idx; exact ⟨rfl, rfl⟩
  | succ g ih =>
      intro levels lvl idx
      unfold updateParentsFreeGo
      split
      · have h2 := ih (levels.set (lvl + 1)
          ((levels.getD (lvl + 1) []).set (idx / 8)
            ((((levels.getD lvl []).drop (idx / 8 * 8)).take 8).all (fun b => b))))
          (lvl + 1) (idx / 8)
        refine ⟨?_, ?_⟩
        · rw [h2.1]
          simp [List.getD_eq_getElem?_getD, List.getElem?_set_ne
            (by omega : lvl + 1 ≠ 0)]
        · rw [h2.2]
          simp
      · exact ⟨rfl, rfl⟩

theorem expandMemLevels_getD0 (levels : List (List Bool))
    (h : 0 < levels.length) :
    (expandMemLevels levels).getD 0 [] =
      levels.getD 0 [] ++
        List.replicate (8 ^ (levels.length - 1 - 0)) false := by
  unfold expandMemLevels
  have h0 : (List.range levels.length)[0]? = some 0 := by
    rw [List.getElem?_range h]
  simp [List.getD_eq_getElem?_getD, List.getElem?_map, h0]

theorem expandMemLevels_length (levels : List (List Bool)) :
    (expandMemLevels levels).length = levels.length := by
  simp [expandMemLevels]

theorem pushNewTop_getD0 (mem : List (List Bool)) :
    (pushNewTop mem).getD 0 [] = mem.getD 0 [] := by
  unfold pushNewTop
  cases hgl : mem.getLast? with
  | none => rfl
  | some topL =>
      by_cases h64 : topL.length = 64
      · simp only [h64, ite_true, if_true]
        have hlt : 0 < mem.length := by
          cases hm : mem with
          | nil => rw [hm] at hgl; cases hgl
          | cons a rest => simp
        exact getD_append_left mem [foldTop topL] [] 0 hlt
      · simp only [h64, ite_false, if_false]

theorem expandIfNeed_spec (s : PageBitmapM) :
    (expandIfNeed s).pageSize = s.pageSize ∧
    (∃ tail, layer0 (expandIfNeed s) = layer0 s ++ tail) ∧
    s.dataFileLen ≤ (expandIfNeed s).dataFileLen ∧
    (∀ off, off < (layer0 s).length * s.pageSize →
      (expandIfNeed s).dataFile off = s.dataFile off) := by
  unfold expandIfNeed
  split
  · exact ⟨rfl, ⟨[], by simp⟩, le_refl _, fun off _ => rfl⟩
  · refine ⟨rfl, ?_, le_max_left _ _, fun off hoff => ?_⟩
    · rcases Nat.eq_zero_or_pos s.levels.length with hz | hpos
      · refine ⟨[], ?_⟩
        have hnil : s.levels = [] := List.length_eq_zero.mp hz
        simp [layer0, pushNewTop, expandMemLevels, hnil]
      · refine ⟨List.replicate (8 ^ (s.levels.length - 1 - 0)) false, ?_⟩
        show (pushNewTop (expandMemLevels s.levels)).getD 0 [] = _
        rw [pushNewTop_getD0, expandMemLevels_getD0 s.levels hpos]
        rfl
    · show (if (s.levels.getD 0 []).length * s.pageSize ≤ off ∧
          off < ((s.levels.getD 0 []).length + 8 ^ (s.levels.length - 1 + 1)) *
            s.pageSize then 0 else s.dataFile off) = s.dataFile off
      rw [if_neg]
      intro hcon
      have := hcon.1
      simp only [layer0] at hoff
      omega

theorem allocatePage_spec (s s1 : PageBitmapM) (p : Nat)
    (h : allocatePage s = some (s1, p)) :
    s1.pageSize = s.pageSize ∧
    p < (layer0 s1).length ∧
    (layer0 s1).getD p false = true ∧
    (∀ q, q < (layer0 s).length → q ≠ p →
      (layer0 s1).getD q false = (layer0 s).getD q false) ∧
    (∀ q, q < (layer0 s).length → (layer0 s).getD q false = true → p ≠ q) ∧
    (layer0 s).length ≤ (layer0 s1).length ∧
    s.dataFileLen ≤ s1.dataFileLen ∧
    (∀ off, off < (layer0 s).length * s.pageSize →
      s1.dataFile off = s.dataFile off) := by
  obtain ⟨hps, ⟨tail, htail⟩, hdl, hdf⟩ := expandIfNeed_spec s
  unfold allocatePage at h
  cases hfs : findAndSet (expandIfNeed s).levels
      ((expandIfNeed s).levels.length - 1) 0 with
  | none => rw [hfs] at h; cases h
  | some r =>
      obtain ⟨levels1, p'⟩ := r
      rw [hfs] at h
      simp only [Option.some.injEq, Prod.mk.injEq] at h
      obtain ⟨hR, hpp⟩ := h
      replace hpp := hpp.symm
      subst hpp
      subst hR
      obtain ⟨hplt, hpbit, hlv1⟩ :=
        findAndSet_spec (expandIfNeed s).levels _ 0 levels1 p hfs
      have hplt' : p < (layer0 (expandIfNeed s)).length := hplt
      have hpbitL : (layer0 (expandIfNeed s)).getD p false = false := hpbit
      have hpos : 0 < (expandIfNeed s).levels.length := by
        rcases hl : (expandIfNeed s).levels with _ | ⟨a, rest⟩
        · rw [show layer0 (expandIfNeed s) = (expandIfNeed s).levels.getD 0 []
            from rfl, hl] at hplt'
          simp at hplt'
        · simp
      have hl0 : (updateParentsAlloc levels1 0 p).getD 0 [] =
          (layer0 (expandIfNeed s)).set p true := by
        rw [updateParentsAlloc]
        rw [(updateParentsAllocGo_layer0 levels1.length levels1 0 p).1]
        rw [hlv1]
        simp [layer0, List.getD_eq_getElem?_getD, List.getElem?_set_self hpos]
      have hlen0 : (layer0 s).length ≤ (layer0 (expandIfNeed s)).length := by
        rw [htail]
        simp
      refine ⟨hps, ?_, ?_, ?_, ?_, ?_, hdl, hdf⟩
      · show p < ((updateParentsAlloc levels1 0 p).getD 0 []).length
        rw [hl0, List.length_set]
        exact hplt'
      · show ((updateParentsAlloc levels1 0 p).getD 0 []).getD p false = true
        rw [hl0]
        simp [List.getD_eq_getElem?_getD, List.getElem?_set_self hplt']
      · intro q hq hqp
        show ((updateParentsAlloc levels1 0 p).getD 0 []).getD q false = _
        rw [hl0]
        rw [show ((layer0 (expandIfNeed s)).set p true).getD q false =
          (layer0 (expandIfNeed s)).getD q false from by
            simp [List.getD_eq_getElem?_getD,
              List.getElem?_set_ne (fun hc => hqp hc.symm)]]
        rw [htail]
        exact getD_append_left _ _ _ q hq
      · intro q hq hqtrue heq
        subst heq
        rw [htail] at hpbitL
        rw [getD_append_left _ _ _ _ hq] at hpbitL
        rw [hqtrue] at hpbitL
        cases hpbitL
      · show (layer0 s).length ≤ ((updateParentsAlloc levels1 0 p).getD 0 []).length
        rw [hl0, List.length_set]
        exact hlen0

theorem writePage_establish (pb pb1 : PageBitmapM) (v : List Nat) (p : Nat)
    (h : writePage pb v = some (pb1, p)) :
    PbProtects pb1 p v pb.pageSize ∧ pb1.pageSize = pb.pageSize ∧
    (layer0 pb).length ≤ (layer0 pb1).length := by
  unfold writePage at h
  cases halloc : allocatePage pb with
  | none => rw [halloc] at h; cases h
  | some r =>
      obtain ⟨a1, p'⟩ := r
      rw [halloc] at h
      dsimp only [] at h
      split at h
      · cases h
      next hle =>
        simp only [Option.some.injEq, Prod.mk.injEq] at h
        obtain ⟨hR, hpp⟩ := h
        replace hpp := hpp.symm
        subst hpp
        subst hR
        obtain ⟨haps, haplt, habit, hapre, hafresh, halen, hadl, hadf⟩ :=
          allocatePage_spec pb a1 p halloc
        have hvle : v.length ≤ pb.pageSize := by
          have h1 : v.length ≤ a1.pageSize := Nat.le_of_not_lt hle
          rwa [haps] at h1
        refine ⟨⟨haps, haplt, habit, hvle, ?_, ?_⟩, haps, halen⟩
        · intro i hi
          show (if p * a1.pageSize ≤ p * pb.pageSize + i ∧
              p * pb.pageSize + i < p * a1.pageSize + v.length
            then v.getD (p * pb.pageSize + i - p * a1.pageSize) 0
            else a1.dataFile (p * pb.pageSize + i)) = v.getD i 0
          rw [haps]
          rw [if_pos ⟨Nat.le_add_right _ _, by omega⟩]
          rw [Nat.add_sub_cancel_left]
        · show p * pb.pageSize + v.length ≤
            max a1.dataFileLen (p * a1.pageSize + v.length)
          rw [haps]
          exact le_max_right _ _

theorem writePage_preserves (pb pb1 : PageBitmapM) (vv : List Nat) (p1 : Nat)
    (h : writePage pb vv = some (pb1, p1)) (p : Nat) (v : List Nat) (ps : Nat)
    (hprot : PbProtects pb p v ps) : PbProtects pb1 p v ps := by
  obtain ⟨hps, hplt, hbit, hvle, hbytes, hdlen⟩ := hprot
  unfold writePage at h
  cases halloc : allocatePage pb with
  | none => rw [halloc] at h; cases h
  | some r =>
      obtain ⟨a1, p1'⟩ := r
      rw [halloc] at h
      dsimp only [] at h
      split at h
      · cases h
      next hle =>
        simp only [Option.some.injEq, Prod.mk.injEq] at h
        obtain ⟨hR, hpp⟩ := h
        replace hpp := hpp.symm
        subst hpp
        subst hR
        obtain ⟨haps, haplt, habit, hapre, hafresh, halen, hadl, hadf⟩ :=
          allocatePage_spec pb a1 p1 halloc
        have hfresh : p1 ≠ p := hafresh p hplt hbit
        have hpsa : a1.pageSize = ps := haps.trans hps
        have hvvle : vv.length ≤ ps := by
          have h1 : vv.length ≤ a1.pageSize := Nat.le_of_not_lt hle
          rwa [hpsa] at h1
        refine ⟨hpsa, lt_of_lt_of_le hplt halen, ?_, hvle, ?_, ?_⟩
        · show (layer0 a1).getD p false = true
          rw [hapre p hplt (fun heq => hfresh heq.symm)]
          exact hbit
        · intro i hi
          have hips : i < ps := lt_of_lt_of_le hi hvle
          show (if p1 * a1.pageSize ≤ p * ps + i ∧
              p * ps + i < p1 * a1.pageSize + vv.length
            then vv.getD (p * ps + i - p1 * a1.pageSize) 0
            else a1.dataFile (p * ps + i)) = v.getD i 0
          rw [hpsa]
          rw [if_neg ?hdisj]
          case hdisj =>
            rcases Nat.lt_or_ge p1 p with hlt | hge
            · have h1 : (p1 + 1) * ps = p1 * ps + ps := Nat.succ_mul p1 ps
              have h2 : (p1 + 1) * ps ≤ p * ps := Nat.mul_le_mul_right ps hlt
              intro hcon
              omega
            · have hplt1 : p < p1 := lt_of_le_of_ne hge (fun hc => hfresh hc.symm)
              have h1 : (p + 1) * ps = p * ps + ps := Nat.succ_mul p ps
              have h2 : (p + 1) * ps ≤ p1 * ps := Nat.mul_le_mul_right ps hplt1
              intro hcon
              omega
          have hoff : p * ps + i < (layer0 pb).length * pb.pageSize := by
            have h1 : (p + 1) * ps = p * ps + ps := Nat.succ_mul p ps
            have h2 : (p + 1) * ps ≤ (layer0 pb).length * ps :=
              Nat.mul_le_mul_right ps hplt
            rw [hps]
            omega
          rw [hadf _ hoff]
          exact hbytes i hi
        · show p * ps + v.length ≤ max a1.dataFileLen (p1 * a1.pageSize + vv.length)
          have h1 : p * ps + v.length ≤ a1.dataFileLen := le_trans hdlen hadl
          exact le_trans h1 (le_max_left _ _)

theorem freePage_preserves (pb pb1 : PageBitmapM) (q : Nat)
    (h : freePage pb q = some pb1) (p : Nat) (v : List Nat) (ps : Nat)
    (hqp : q ≠ p) (hprot : PbProtects pb p v ps) : PbProtects pb1 p v ps := by
  obtain ⟨hps, hplt, hbit, hvle, hbytes, hdlen⟩ := hprot
  unfold freePage at h
  split at h
  next hqlt =>
    simp only [Option.some.injEq] at h
    subst h
    have hpos : 0 < pb.levels.length := by
      rcases hl : pb.levels with _ | ⟨a, r⟩
      · simp [layer0, hl] at hplt
      · simp
    have hl0 : (updateParentsFree
        (pb.levels.set 0 ((pb.levels.getD 0 []).set q false)) 0 q).getD 0 [] =
        (layer0 pb).set q false := by
      rw [updateParentsFree]
      rw [(updateParentsFreeGo_layer0 _ _ 0 q).1]
      simp [layer0, List.getD_eq_getElem?_getD, List.getElem?_set_self hpos]
    refine ⟨hps, ?_, ?_, hvle, hbytes, hdlen⟩
    · show p < ((updateParentsFree
        (pb.levels.set 0 ((pb.levels.getD 0 []).set q false)) 0 q).getD 0 []).length
      rw [hl0, List.length_set]
      exact hplt
    · show ((updateParentsFree
        (pb.levels.set 0 ((pb.levels.getD 0 []).set q false)) 0 q).getD 0
          []).getD p false = true
      rw [hl0]
      rw [show ((layer0 pb).set q false).getD p false =
        (layer0 pb).getD p false from by
          simp [List.getD_eq_getElem?_getD, List.getElem?_set_ne hqp]]
      exact hbit
  next hqlt => cases h

theorem encodeDataId_eq (li p : Nat) (hli : li < 256) (hp : p < 2 ^ 56) :
    encodeDataId li p = 2 ^ 56 * li + p := by
  unfold encodeDataId
  rw [Nat.shiftLeft_eq]
  rw [Nat.and_pow_two_sub_one_eq_mod, Nat.mod_eq_of_lt hp]
  rw [Nat.mod_eq_of_lt (by
    calc li * 2 ^ 56 < 256 * 2 ^ 56 := by
          exact (Nat.mul_lt_mul_right (by norm_num)).mpr hli
      _ = 2 ^ 64 := by norm_num)]
  rw [Nat.mul_comm li (2 ^ 56)]
  exact (Nat.mul_add_lt_is_or hp li).symm

theorem decodeLevel_encode (li p : Nat) (hli : li < 256) (hp : p < 2 ^ 56) :
    decodeLevel (encodeDataId li p) = li := by
  rw [encodeDataId_eq li p hli hp]
  unfold decodeLevel
  rw [Nat.shiftRight_eq_div_pow]
  rw [Nat.mul_add_div (by norm_num)]
  rw [Nat.div_eq_of_lt hp]
  omega

theorem decodePage_encode (li p : Nat) (hli : li < 256) (hp : p < 2 ^ 56) :
    decodePage (encodeDataId li p) = p := by
  rw [encodeDataId_eq li p hli hp]
  unfold decodePage
  rw [Nat.and_pow_two_sub_one_eq_mod]
  rw [Nat.mul_add_mod]
  exact Nat.mod_eq_of_lt hp

theorem dataId_recompose (fid li p : Nat) (hli : li < 256)
    (h1 : decodeLevel fid = li) (h2 : decodePage fid = p) :
    fid = encodeDataId li p := by
  have hp : p < 2 ^ 56 := by
    rw [← h2]
    unfold decodePage
    rw [Nat.and_pow_two_sub_one_eq_mod]
    exact Nat.mod_lt _ (by norm_num)
  rw [encodeDataId_eq li p hli hp]
  rw [← h1, ← h2]
  unfold decodeLevel decodePage
  rw [Nat.shiftRight_eq_div_pow, Nat.and_pow_two_sub_one_eq_mod]
  exact (Nat.div_add_mod fid (2 ^ 56)).symm

theorem take_range_eq (n m : Nat) (h : n ≤ m) :
    (List.range m).take n = List.range n := by
  apply List.ext_getElem?
  intro i
  by_cases hi : i < n
  · rw [List.getElem?_take_of_lt hi]
    rw [List.getElem?_range (lt_of_lt_of_le hi h), List.getElem?_range hi]
  · rw [List.getElem?_eq_none (by simp [List.length_take]; omega),
      List.getElem?_eq_none (by simp; omega)]

theorem pbProtects_read (pb : PageBitmapM) (p : Nat) (v : List Nat) (ps : Nat)
    (h : PbProtects pb p v ps) :
    (readPage pb p).length = ps ∧ (readPage pb p).take v.length = v := by
  obtain ⟨hps, hplt, hbit, hvle, hbytes, hdlen⟩ := h
  have hr : readPage pb p = (List.range ps).map
      (fun i => if p * ps + i < pb.dataFileLen then pb.dataFile (p * ps + i)
        else 0) := by
    unfold readPage
    rw [hps]
  rw [hr]
  refine ⟨by simp, ?_⟩
  rw [← List.map_take, take_range_eq v.length ps hvle]
  apply List.ext_getElem
  · simp
  · intro i h1 h2
    simp only [List.getElem_map, List.getElem_range]
    have hiv : i < v.length := h2
    rw [if_pos (by omega)]
    rw [hbytes i hiv]
    simp [List.getD_eq_getElem?_getD, List.getElem?_eq_getElem hiv]

theorem levelPageWrite_decomp (lp : LevelPageM) (v : List Nat) (id : Nat)
    (lp1 : LevelPageM) (h : levelPageWrite lp v = some (id, lp1)) :
    ∃ li pb pb1 p, li < lp.levels.length ∧
      lp.levels.getD li pbDefault = pb ∧
      writePage pb v = some (pb1, p) ∧
      id = encodeDataId li p ∧
      lp1 = { lp with levels := lp.levels.set li pb1 } := by
  unfold levelPageWrite at h
  cases hlast : lp.levelsPageSize.getLast? with
  | none => rw [hlast] at h; cases h
  | some lastPs =>
      rw [hlast] at h
      dsimp only [] at h
      split at h
      · cases hfi : lp.levelsPageSize.findIdx? (fun ps => v.length ≤ ps) with
        | none => rw [hfi] at h; cases h
        | some li =>
            rw [hfi] at h
            dsimp only [] at h
            cases hget : lp.levels[li]? with
            | none => rw [hget] at h; cases h
            | some pb =>
                rw [hget] at h
                dsimp only [] at h
                cases hwp : writePage pb v with
                | none => rw [hwp] at h; cases h
                | some r =>
                    obtain ⟨pb1, p⟩ := r
                    rw [hwp] at h
                    simp only [Option.some.injEq, Prod.mk.injEq] at h
                    obtain ⟨hid, hlp1⟩ := h
                    obtain ⟨hlt, hgetE⟩ := List.getElem?_eq_some_iff.mp hget
                    refine ⟨li, pb, pb1, p, hlt, ?_, hwp, hid.symm, hlp1.symm⟩
                    simp [List.getD_eq_getElem?_getD, hget]
      · cases h

theorem lpStep_preserves (lp lp1 : LevelPageM) (op : LPOpM)
    (h : lpStep lp op = some lp1) (li p : Nat) (v : List Nat) (ps : Nat)
    (hli : li < 256)
    (hop : ∀ fid, op = LPOpM.free fid → fid ≠ encodeDataId li p)
    (hprot : LpProtects lp li p v ps) : LpProtects lp1 li p v ps := by
  obtain ⟨hlt, hpb⟩ := hprot
  cases op with
  | write vv =>
      simp only [lpStep] at h
      cases hw : levelPageWrite lp vv with
      | none => rw [hw] at h; cases h
      | some r =>
          obtain ⟨id0, lpw⟩ := r
          rw [hw] at h
          simp only [Option.map_some', Option.some.injEq] at h
          subst h
          obtain ⟨li', pb', pb1, p1, hlt', hgetd, hwp, hid0, hlpw⟩ :=
            levelPageWrite_decomp lp vv id0 lpw hw
          subst hlpw
          refine ⟨?_, ?_⟩
          · show li < (lp.levels.set li' pb1).length
            rw [List.length_set]
            exact hlt
          · show PbProtects ((lp.levels.set li' pb1).getD li pbDefault) p v ps
            by_cases he : li' = li
            · subst he
              rw [List.getD_eq_getElem?_getD, List.getElem?_set_self hlt']
              show PbProtects pb1 p v ps
              exact writePage_preserves pb' pb1 vv p1 hwp p v ps (hgetd ▸ hpb)
            · rw [List.getD_eq_getElem?_getD, List.getElem?_set_ne he,
                ← List.getD_eq_getElem?_getD]
              exact hpb
  | free fid =>
      simp only [lpStep] at h
      unfold levelPageFree at h
      cases hget : lp.levels[decodeLevel fid]? with
      | none => rw [hget] at h; cases h
      | some pb0 =>
          rw [hget] at h
          dsimp only [] at h
          cases hfp : freePage pb0 (decodePage fid) with
          | none => rw [hfp] at h; cases h
          | some pb1 =>
              rw [hfp] at h
              simp only [Option.some.injEq] at h
              subst h
              refine ⟨?_, ?_⟩
              · show li < (lp.levels.set (decodeLevel fid) pb1).length
                rw [List.length_set]
                exact hlt
              · show PbProtects
                  ((lp.levels.set (decodeLevel fid) pb1).getD li pbDefault) p v ps
                by_cases he : decodeLevel fid = li
                · by_cases hq : decodePage fid = p
                  · exact absurd (dataId_recompose fid li p hli he hq)
                      (hop fid rfl)
                  · rw [he] at hget
                    have hgd : lp.levels.getD li pbDefault = pb0 := by
                      rw [List.getD_eq_getElem?_getD, hget]
                      rfl
                    rw [he, List.getD_eq_getElem?_getD,
                      List.getElem?_set_self hlt]
                    show PbProtects pb1 p v ps
                    exact freePage_preserves pb0 pb1 (decodePage fid) hfp
                      p v ps hq (hgd ▸ hpb)
                · rw [List.getD_eq_getElem?_getD, List.getElem?_set_ne he,
                    ← List.getD_eq_getElem?_getD]
                  exact hpb

theorem lpRun_preserves (t : List LPOpM) :
    ∀ (lp lp2 : LevelPageM) (li p : Nat) (v : List Nat) (ps : Nat),
      lpRun lp t = some lp2 → li < 256 →
      (∀ fid, LPOpM.free fid ∈ t → fid ≠ encodeDataId li p) →
      LpProtects lp li p v ps → LpProtects lp2 li p v ps := by
  induction t with
  | nil =>
      intro lp lp2 li p v ps h _ _ hprot
      simp only [lpRun, Option.some.injEq] at h
      subst h
      exact hprot
  | cons op rest ih =>
      intro lp lp2 li p v ps h hli hnf hprot
      simp only [lpRun] at h
      cases hs : lpStep lp op with
      | none => rw [hs] at h; cases h
      | some lp' =>
          rw [hs] at h
          refine ih lp' lp2 li p v ps h hli
            (fun fid hm => hnf fid (List.mem_cons_of_mem _ hm)) ?_
          refine lpStep_preserves lp lp' op hs li p v ps hli ?_ hprot
          intro fid hop
          refine hnf fid ?_
          rw [hop]
          exact List.mem_cons_self _ _

/-- C5: allocator round-trip.  For every data id returned by
`LevelPage::write(V)` (the model rejects nothing that the source accepts:
`V` fits some configured level), as long as `free(data_id)` has not been
called — over any later trace of writes and frees of other ids —
`LevelPage::read(data_id)` succeeds, returns exactly the page size of the
id's level, and its first `|V|` bytes equal `V`.  The side conditions say
the store is within the id encoding's capacity: at most 256 levels and at
most `2^56` pages per level. -/
theorem c5_write_read_roundtrip
    (lp lp1 lp2 : LevelPageM) (v : List Nat) (id : Nat) (t : List LPOpM)
    (hw : levelPageWrite lp v = some (id, lp1))
    (hlev : lp.levels.length ≤ 256)
    (hbound : ∀ i, i < lp1.levels.length →
      (layer0 (lp1.levels.getD i pbDefault)).length ≤ 2 ^ 56)
    (hrun : lpRun lp1 t = some lp2)
    (hnofree : ∀ fid, LPOpM.free fid ∈ t → fid ≠ id) :
    ∃ r, levelPageRead lp2 id = some r ∧
      r.length = levelPageSizeAt lp id ∧ r.take v.length = v := by
  obtain ⟨li, pb, pb1, p, hli_lt, hgetd, hwp, hid, hlp1⟩ :=
    levelPageWrite_decomp lp v id lp1 hw
  have hli256 : li < 256 := lt_of_lt_of_le hli_lt hlev
  obtain ⟨hprot1, hps1, hll⟩ := writePage_establish pb pb1 v p hwp
  have hli1 : li < lp1.levels.length := by
    rw [hlp1]
    show li < (lp.levels.set li pb1).length
    rw [List.length_set]
    exact hli_lt
  have hgetd1 : lp1.levels.getD li pbDefault = pb1 := by
    rw [hlp1]
    show (lp.levels.set li pb1).getD li pbDefault = pb1
    rw [List.getD_eq_getElem?_getD, List.getElem?_set_self hli_lt]
    rfl
  have hp56 : p < 2 ^ 56 := by
    have h1 := hbound li hli1
    rw [hgetd1] at h1
    exact lt_of_lt_of_le hprot1.2.1 h1
  have hprotL : LpProtects lp1 li p v pb.pageSize := by
    refine ⟨hli1, ?_⟩
    rw [hgetd1]
    exact hprot1
  have hprot2 : LpProtects lp2 li p v pb.pageSize := by
    refine lpRun_preserves t lp1 lp2 li p v pb.pageSize hrun hli256 ?_ hprotL
    intro fid hm
    rw [← hid]
    exact hnofree fid hm
  obtain ⟨hlt2, hpb2⟩ := hprot2
  have hdl : decodeLevel id = li := by
    rw [hid]
    exact decodeLevel_encode li p hli256 hp56
  have hdp : decodePage id = p := by
    rw [hid]
    exact decodePage_encode li p hli256 hp56
  refine ⟨readPage (lp2.levels.getD li pbDefault) p, ?_, ?_, ?_⟩
  · show (if decodeLevel id < lp2.levels.length then
        some (readPage (lp2.levels.getD (decodeLevel id) pbDefault)
          (decodePage id))
      else none) = some (readPage (lp2.levels.getD li pbDefault) p)
    rw [hdl, hdp, if_pos hlt2]
  · rw [(pbProtects_read _ p v pb.pageSize hpb2).1]
    unfold levelPageSizeAt
    rw [hdl, hgetd]
  · exact (pbProtects_read _ p v pb.pageSize hpb2).2

theorem c5_witness :
    ∃ r, levelPageRead c5AfterWrite 0 = some r ∧
      r.length = levelPageSizeAt c5WitLP 0 ∧
      r.take ([1, 2, 3] : List Nat).length = [1, 2, 3] := by
  refine c5_write_read_roundtrip c5WitLP c5AfterWrite c5AfterWrite
    [1, 2, 3] 0 [] rfl (by decide) ?_ rfl ?_
  · intro i hi
    have hl : c5AfterWrite.levels.length = 1 := rfl
    rw [hl] at hi
    have h0 : i = 0 := Nat.lt_one_iff.mp hi
    subst h0
    decide
  · intro fid hm
    exact absurd hm (List.not_mem_nil _)
